import Mathlib

/-!
Shallow embedding of the `ewrap` Go library's circuit breaker
(`src/threshold.go`) and pooled error group (`src/error_group.go`),
together with theorems settling the specification claims about them.

Modelling conventions:
* `time.Time` / `time.Duration` are modelled as `Int` nanosecond values;
  each operation that reads the clock takes the current instant `now`
  explicitly.  `time.Since(t)` is `now - t`.
* Go's mutexes serialize the operations; each operation is therefore a
  pure function from the pre-state to the post-state (plus its return
  value).  Observer notifications and the async `onStateChange` callback
  do not touch the breaker's own fields and are omitted from the state.
* A Go `error` interface value is `Option GoError`: `none` is the nil
  interface.  Distinct calls of `errors.New` yield distinct values,
  modelled by the `id` tag of `GoError.base`.
-/

namespace Ewrap

/-! ### Circuit breaker state (src/threshold.go) -/

inductive CircuitState where
  | CircuitClosed
  | CircuitOpen
  | CircuitHalfOpen
deriving DecidableEq, Repr

structure CircuitBreaker where
  name : String
  maxFailures : Int
  timeout : Int
  failureCount : Int
  lastFailure : Int
  state : CircuitState
deriving DecidableEq, Repr

/-- `NewCircuitBreaker` from src/threshold.go: zero `failureCount`, zero
`lastFailure` (Go's zero `time.Time`), state `CircuitClosed`. -/
def NewCircuitBreaker (name : String) (maxFailures timeout : Int) : CircuitBreaker :=
  { name := name
    maxFailures := maxFailures
    timeout := timeout
    failureCount := 0
    lastFailure := 0
    state := .CircuitClosed }

/-- `transitionTo` from src/threshold.go: no-op when already in the target
state; otherwise mutate the state (the observer / callback notifications
do not affect the breaker's fields). -/
def CircuitBreaker.transitionTo (cb : CircuitBreaker) (newState : CircuitState) :
    CircuitBreaker :=
  if cb.state = newState then cb else { cb with state := newState }

/-- `RecordFailure` from src/threshold.go: increment `failureCount`, stamp
`lastFailure := now`, and transition to Open when currently Closed and
the threshold is met. -/
def CircuitBreaker.RecordFailure (cb : CircuitBreaker) (now : Int) : CircuitBreaker :=
  let cb := { cb with failureCount := cb.failureCount + 1, lastFailure := now }
  if cb.state = .CircuitClosed ∧ cb.maxFailures ≤ cb.failureCount then
    cb.transitionTo .CircuitOpen
  else
    cb

/-- `RecordSuccess` from src/threshold.go: only in HalfOpen does it reset
`failureCount` and transition to Closed. -/
def CircuitBreaker.RecordSuccess (cb : CircuitBreaker) : CircuitBreaker :=
  if cb.state = .CircuitHalfOpen then
    ({ cb with failureCount := 0 }).transitionTo .CircuitClosed
  else
    cb

/-- `CanExecute` from src/threshold.go, returning the post-state and the
boolean result.  In the Open branch, `time.Since(cb.lastFailure) > cb.timeout`
is `now - cb.lastFailure > cb.timeout`. -/
def CircuitBreaker.CanExecute (cb : CircuitBreaker) (now : Int) :
    CircuitBreaker × Bool :=
  match cb.state with
  | .CircuitClosed => (cb, true)
  | .CircuitOpen =>
      if cb.timeout < now - cb.lastFailure then
        (cb.transitionTo .CircuitHalfOpen, true)
      else
        (cb, false)
  | .CircuitHalfOpen => (cb, true)

/-- Folding `RecordFailure` over a list of failure instants. -/
def recordFailures (cb : CircuitBreaker) (ts : List Int) : CircuitBreaker :=
  ts.foldl CircuitBreaker.RecordFailure cb

/-! ### Go errors: `errors.New`, `errors.Join`, `errors.Is` -/

/-- A (non-nil) Go error value: either a leaf error (the `id` tag models
allocation identity, so two `errors.New` results with equal messages stay
distinct) or the result of `errors.Join` on a list of non-nil errors. -/
inductive GoError where
  | base (id : Nat) (msg : String)
  | join (errs : List GoError)

mutual

/-- Equality of Go error interface values (structural on this model). -/
def GoError.beq : GoError → GoError → Bool
  | .base i m, .base j n => i == j && m == n
  | .join es, .join fs => GoError.beqList es fs
  | _, _ => false

def GoError.beqList : List GoError → List GoError → Bool
  | [], [] => true
  | e :: es, f :: fs => GoError.beq e f && GoError.beqList es fs
  | _, _ => false

end

instance : BEq GoError := ⟨GoError.beq⟩

mutual

/-- The `Error()` string of a Go error: a leaf returns its message; a
joined error concatenates the constituents' messages, newline-separated
(the loop in `joinError.Error()`). -/
def errMessage : GoError → String
  | .base _ msg => msg
  | .join errs => errMessageList errs

def errMessageList : List GoError → String
  | [] => ""
  | [e] => errMessage e
  | e :: es => errMessage e ++ "\n" ++ errMessageList es

end

mutual

/-- `errors.Is(err, target)`: direct equality of the interface values, or
recursion through `Unwrap() []error` for a joined error. -/
def isError (err target : GoError) : Bool :=
  GoError.beq err target ||
    (match err with
     | .join errs => isErrorList errs target
     | .base _ _ => false)

def isErrorList : List GoError → GoError → Bool
  | [], _ => false
  | e :: es, target => isError e target || isErrorList es target

end

/-- `errors.Join(errs...)`: drop the nil entries; if none remain return
nil, otherwise a join error over the non-nil entries in order. -/
def goJoin (errs : List (Option GoError)) : Option GoError :=
  let nonNil := errs.filterMap id
  if nonNil.isEmpty then none else some (.join nonNil)

/-! ### ErrorGroup and ErrorGroupPool (src/error_group.go) -/

/-- An `ErrorGroup`: the `errors` slice (entries are Go interface values,
so `Option GoError`) and the back-reference to the originating pool,
modelled as the pool's identifier. -/
structure ErrorGroup where
  errors : List (Option GoError)
  pool : Option Nat

/-- `NewErrorGroup`: standalone group, empty slice, no pool reference. -/
def NewErrorGroup : ErrorGroup :=
  { errors := [], pool := none }

/-- `Clear`: empty the error slice (capacity retention is invisible here). -/
def ErrorGroup.Clear (eg : ErrorGroup) : ErrorGroup :=
  { eg with errors := [] }

/-- `Add`: append the error unless it is nil. -/
def ErrorGroup.Add (eg : ErrorGroup) (err : Option GoError) : ErrorGroup :=
  match err with
  | none => eg
  | some _ => { eg with errors := eg.errors ++ [err] }

/-- `HasErrors`: `len(eg.errors) > 0`. -/
def ErrorGroup.HasErrors (eg : ErrorGroup) : Bool :=
  decide (0 < eg.errors.length)

/-- `Errors`: `slices.Clone(eg.errors)` — a copy with the same contents. -/
def ErrorGroup.Errors (eg : ErrorGroup) : List (Option GoError) :=
  eg.errors

/-- The message of a slice entry.  A nil entry has no message (Go would
panic calling `Error()` on it; `Add` never stores one). -/
def optMessage : Option GoError → String
  | some e => errMessage e
  | none => ""

/-- The `for i, err := range eg.errors` loop body of `Error()`:
`fmt.Fprintf(&builder, "%d: %s\n", i+1, err.Error())`, with `i` the
running zero-based index. -/
def errorLines : Nat → List (Option GoError) → String
  | _, [] => ""
  | i, e :: es => toString (i + 1) ++ ": " ++ optMessage e ++ "\n" ++ errorLines (i + 1) es

/-- `Error()` from src/error_group.go: empty string for zero errors, the
single message verbatim for one, and otherwise a count header followed by
the enumerated `i+1: msg` lines. -/
def ErrorGroup.Error (eg : ErrorGroup) : String :=
  match eg.errors with
  | [] => ""
  | [e] => optMessage e
  | errs => toString errs.length ++ " errors occurred:\n" ++ errorLines 0 errs

/-- `ErrorOrNil`: the group itself when it has errors, nil otherwise. -/
def ErrorGroup.ErrorOrNil (eg : ErrorGroup) : Option ErrorGroup :=
  if eg.HasErrors then some eg else none

/-- `Join`: `errors.Join(eg.errors...)`. -/
def ErrorGroup.Join (eg : ErrorGroup) : Option GoError :=
  goJoin eg.errors

/-- An `ErrorGroupPool`: its identity (for back-references), the
configured initial capacity, and the multiset of pooled instances
(modelled as a stack; `sync.Pool` hands back some stored instance or
calls `New` when empty). -/
structure ErrorGroupPool where
  pid : Nat
  initialCapacity : Nat
  items : List ErrorGroup

/-- `NewErrorGroupPool`: a negative capacity is silently replaced by the
default `poolCapacity = 4`; the pool starts empty. -/
def NewErrorGroupPool (pid : Nat) (initialCapacity : Int) : ErrorGroupPool :=
  { pid := pid
    initialCapacity := if initialCapacity < 0 then 4 else initialCapacity.toNat
    items := [] }

/-- `Get` from src/error_group.go: pop a pooled instance (or mint a fresh
one via the pool's `New` when empty), set its pool back-reference, and
`Clear` it.  The defensive type-assertion-failure branch is unreachable
here: every stored item is an `ErrorGroup`. -/
def ErrorGroupPool.Get (p : ErrorGroupPool) : ErrorGroup × ErrorGroupPool :=
  match p.items with
  | [] =>
      let eg : ErrorGroup := { errors := [], pool := none }
      (({ eg with pool := some p.pid }).Clear, p)
  | eg :: rest =>
      (({ eg with pool := some p.pid }).Clear, { p with items := rest })

/-- `put` from src/error_group.go: `Clear` the group, null its pool
back-reference, push it into the pool.  Returns the group as the caller's
still-held reference now sees it, plus the new pool state. -/
def ErrorGroupPool.put (p : ErrorGroupPool) (eg : ErrorGroup) :
    ErrorGroup × ErrorGroupPool :=
  let eg := eg.Clear
  let eg := { eg with pool := none }
  (eg, { p with items := eg :: p.items })

/-- `Release` from src/error_group.go: `eg.pool.put(eg)` when the
back-reference is set, otherwise a no-op.  The dereferenced pool is passed
explicitly; a back-reference naming a different pool leaves this pool
untouched. -/
def ErrorGroup.Release (eg : ErrorGroup) (p : ErrorGroupPool) :
    ErrorGroup × ErrorGroupPool :=
  match eg.pool with
  | some pid => if pid = p.pid then p.put eg else (eg, p)
  | none => (eg, p)

/-! ### Circuit breaker lemmas -/

theorem transitionTo_state (cb : CircuitBreaker) (s : CircuitState) :
    (cb.transitionTo s).state = s := by
  unfold CircuitBreaker.transitionTo
  split
  · assumption
  · rfl

theorem recordFailure_closed_below (cb : CircuitBreaker) (t : Int)
    (hs : cb.state = .CircuitClosed) (hlt : cb.failureCount + 1 < cb.maxFailures) :
    cb.RecordFailure t =
      { cb with failureCount := cb.failureCount + 1, lastFailure := t } := by
  simp only [CircuitBreaker.RecordFailure]
  split
  · next h =>
      exfalso
      have h2 := h.2
      simp only at h2
      omega
  · rfl

theorem recordFailure_opens (cb : CircuitBreaker) (t : Int)
    (hs : cb.state = .CircuitClosed)
    (hc : cb.maxFailures ≤ cb.failureCount + 1) :
    (cb.RecordFailure t).state = .CircuitOpen ∧
    (cb.RecordFailure t).failureCount = cb.failureCount + 1 ∧
    (cb.RecordFailure t).lastFailure = t ∧
    (cb.RecordFailure t).timeout = cb.timeout := by
  unfold CircuitBreaker.RecordFailure
  rw [if_pos ⟨by simpa using hs, by simpa using hc⟩]
  simp [CircuitBreaker.transitionTo, hs]

theorem recordFailures_stay_closed (ts : List Int) (cb : CircuitBreaker)
    (hs : cb.state = .CircuitClosed)
    (hlt : cb.failureCount + ts.length < cb.maxFailures) :
    (recordFailures cb ts).state = .CircuitClosed ∧
    (recordFailures cb ts).failureCount = cb.failureCount + ts.length ∧
    (recordFailures cb ts).maxFailures = cb.maxFailures ∧
    (recordFailures cb ts).timeout = cb.timeout := by
  induction ts generalizing cb with
  | nil => simp [recordFailures, hs]
  | cons t ts ih =>
      have hlen : cb.failureCount + 1 < cb.maxFailures := by
        simp only [List.length_cons] at hlt
        push_cast at hlt
        omega
      have hstep := recordFailure_closed_below cb t hs hlen
      have hrec : recordFailures cb (t :: ts) = recordFailures (cb.RecordFailure t) ts := rfl
      rw [hrec, hstep]
      have hih := ih { cb with failureCount := cb.failureCount + 1, lastFailure := t }
        (by simpa using hs)
        (by simp only [List.length_cons] at hlt; push_cast at hlt ⊢; omega)
      simp only at hih
      obtain ⟨h1, h2, h3, h4⟩ := hih
      refine ⟨h1, ?_, h3, h4⟩
      rw [h2]
      simp only [List.length_cons]
      push_cast
      ring

theorem canExecute_closed (cb : CircuitBreaker) (now : Int)
    (hs : cb.state = .CircuitClosed) :
    cb.CanExecute now = (cb, true) := by
  simp [CircuitBreaker.CanExecute, hs]

/-! ### Claim theorems: circuit breaker -/

/-- Claim C1, counterexample: a breaker with maxFailures = 1 that went
Closed → Open → HalfOpen records a failure; afterwards failureCount (= 2)
is at or above maxFailures, yet the state stays HalfOpen instead of
transitioning to Open as the claim asserts. -/
theorem recordFailure_halfOpen_counterexample :
    ((((NewCircuitBreaker "svc" 1 100).RecordFailure 0).CanExecute 200).1.state
        = CircuitState.CircuitHalfOpen) ∧
    (((((NewCircuitBreaker "svc" 1 100).RecordFailure 0).CanExecute 200).1.RecordFailure
        300).maxFailures
      ≤ ((((NewCircuitBreaker "svc" 1 100).RecordFailure 0).CanExecute 200).1.RecordFailure
        300).failureCount) ∧
    (((((NewCircuitBreaker "svc" 1 100).RecordFailure 0).CanExecute 200).1.RecordFailure
        300).state
      ≠ CircuitState.CircuitOpen) := by
  decide

/-- Claim C1 (amended): in the HalfOpen state, RecordFailure increments
failureCount and stamps lastFailure, but performs no state transition even
when the incremented count reaches maxFailures, because the Open
transition in RecordFailure requires the state to be Closed; the breaker
remains HalfOpen. -/
theorem recordFailure_halfOpen (cb : CircuitBreaker) (now : Int)
    (hs : cb.state = .CircuitHalfOpen) :
    (cb.RecordFailure now).failureCount = cb.failureCount + 1 ∧
    (cb.RecordFailure now).lastFailure = now ∧
    (cb.RecordFailure now).state = .CircuitHalfOpen := by
  simp only [CircuitBreaker.RecordFailure]
  split
  · next h => rw [hs] at h; exact absurd h.1 (by simp)
  · exact ⟨rfl, rfl, hs⟩

/-- Witness for the amended Claim C1 at a concrete HalfOpen breaker. -/
theorem recordFailure_halfOpen_witness :
    ((⟨"svc", 1, 100, 1, 0, .CircuitHalfOpen⟩ : CircuitBreaker).RecordFailure
        300).failureCount = 1 + 1 ∧
    ((⟨"svc", 1, 100, 1, 0, .CircuitHalfOpen⟩ : CircuitBreaker).RecordFailure
        300).lastFailure = 300 ∧
    ((⟨"svc", 1, 100, 1, 0, .CircuitHalfOpen⟩ : CircuitBreaker).RecordFailure
        300).state = .CircuitHalfOpen :=
  recordFailure_halfOpen ⟨"svc", 1, 100, 1, 0, .CircuitHalfOpen⟩ 300 rfl

/-- Claim C2: for a breaker built with maxFailures = N (N ≥ 1) and
timeout T > 0, after N - 1 consecutive RecordFailure calls CanExecute is
still true, and after the N-th failure (at instant t, checked at an
instant now with now - t ≤ T) CanExecute is false. -/
theorem threshold_property (name : String) (N T : Int) (ts : List Int)
    (t now : Int) (hN : 1 ≤ N) (hT : 0 < T)
    (hlen : (ts.length : Int) = N - 1) (hnow : now - t ≤ T) :
    ((recordFailures (NewCircuitBreaker name N T) ts).CanExecute now).2 = true ∧
    (((recordFailures (NewCircuitBreaker name N T) ts).RecordFailure t).CanExecute
        now).2 = false := by
  have h0 : (NewCircuitBreaker name N T).state = .CircuitClosed := rfl
  have h1 := recordFailures_stay_closed ts (NewCircuitBreaker name N T) h0
    (by simp [NewCircuitBreaker]; omega)
  obtain ⟨hstate, hcount, hmax, htime⟩ := h1
  refine ⟨by rw [canExecute_closed _ now hstate], ?_⟩
  have h2 := recordFailure_opens _ t hstate
    (by rw [hcount, hmax]; simp [NewCircuitBreaker]; omega)
  obtain ⟨hos, _, hol, hot⟩ := h2
  unfold CircuitBreaker.CanExecute
  rw [hos]
  rw [if_neg]
  rw [hol, hot, htime]
  simp [NewCircuitBreaker]
  omega

/-- Witness for Claim C2: N = 2, T = 100, one prior failure at 0, the
second at 10, checked at 50. -/
theorem threshold_property_witness :
    ((recordFailures (NewCircuitBreaker "svc" 2 100) [0]).CanExecute 50).2 = true ∧
    (((recordFailures (NewCircuitBreaker "svc" 2 100) [0]).RecordFailure 10).CanExecute
        50).2 = false :=
  threshold_property "svc" 2 100 [0] 10 50 (by decide) (by decide) (by decide)
    (by decide)

/-- Claim C3: an Open breaker's CanExecute returns true and moves the
state to HalfOpen when now - lastFailure strictly exceeds timeout, and
returns false leaving the breaker unchanged when now - lastFailure is at
most timeout. -/
theorem canExecute_open (cb : CircuitBreaker) (now : Int)
    (hs : cb.state = .CircuitOpen) :
    (cb.timeout < now - cb.lastFailure →
      (cb.CanExecute now).2 = true ∧
      (cb.CanExecute now).1.state = .CircuitHalfOpen) ∧
    (now - cb.lastFailure ≤ cb.timeout →
      (cb.CanExecute now).2 = false ∧ (cb.CanExecute now).1 = cb) := by
  constructor
  · intro h
    unfold CircuitBreaker.CanExecute
    rw [hs]
    rw [if_pos h]
    exact ⟨rfl, transitionTo_state cb .CircuitHalfOpen⟩
  · intro h
    unfold CircuitBreaker.CanExecute
    rw [hs]
    rw [if_neg (by omega)]
    exact ⟨rfl, rfl⟩

/-- Witness for Claim C3 at a concrete Open breaker: timeout 100, last
failure at 0, probed at 150 (recovers) and at 50 (stays Open). -/
theorem canExecute_open_witness :
    (((⟨"svc", 2, 100, 2, 0, .CircuitOpen⟩ : CircuitBreaker).CanExecute 150).2 = true ∧
      ((⟨"svc", 2, 100, 2, 0, .CircuitOpen⟩ : CircuitBreaker).CanExecute
        150).1.state = .CircuitHalfOpen) ∧
    (((⟨"svc", 2, 100, 2, 0, .CircuitOpen⟩ : CircuitBreaker).CanExecute 50).2 = false ∧
      ((⟨"svc", 2, 100, 2, 0, .CircuitOpen⟩ : CircuitBreaker).CanExecute 50).1
        = ⟨"svc", 2, 100, 2, 0, .CircuitOpen⟩) :=
  ⟨(canExecute_open ⟨"svc", 2, 100, 2, 0, .CircuitOpen⟩ 150 rfl).1 (by decide),
   (canExecute_open ⟨"svc", 2, 100, 2, 0, .CircuitOpen⟩ 50 rfl).2 (by decide)⟩

/-- Claim C4: RecordSuccess resets failureCount to 0 and closes the
breaker exactly when the state is HalfOpen; in the Closed or Open states
it leaves the whole breaker (state, failureCount, lastFailure) unchanged. -/
theorem recordSuccess_effect (cb : CircuitBreaker) :
    (cb.state = .CircuitHalfOpen →
      cb.RecordSuccess = { cb with failureCount := 0, state := .CircuitClosed }) ∧
    (cb.state = .CircuitClosed ∨ cb.state = .CircuitOpen →
      cb.RecordSuccess = cb) := by
  constructor
  · intro h
    unfold CircuitBreaker.RecordSuccess CircuitBreaker.transitionTo
    rw [if_pos h]
    rw [if_neg (by simp [h])]
  · intro h
    unfold CircuitBreaker.RecordSuccess
    rcases h with h | h <;> rw [if_neg (by simp [h])]

/-- Witness for Claim C4: a HalfOpen breaker closes and resets its count;
a Closed breaker and an Open breaker are left untouched. -/
theorem recordSuccess_effect_witness :
    (⟨"a", 2, 100, 1, 5, .CircuitHalfOpen⟩ : CircuitBreaker).RecordSuccess
        = ⟨"a", 2, 100, 0, 5, .CircuitClosed⟩ ∧
    (⟨"a", 2, 100, 1, 5, .CircuitClosed⟩ : CircuitBreaker).RecordSuccess
        = ⟨"a", 2, 100, 1, 5, .CircuitClosed⟩ ∧
    (⟨"a", 2, 100, 1, 5, .CircuitOpen⟩ : CircuitBreaker).RecordSuccess
        = ⟨"a", 2, 100, 1, 5, .CircuitOpen⟩ :=
  ⟨(recordSuccess_effect ⟨"a", 2, 100, 1, 5, .CircuitHalfOpen⟩).1 rfl,
   (recordSuccess_effect ⟨"a", 2, 100, 1, 5, .CircuitClosed⟩).2 (Or.inl rfl),
   (recordSuccess_effect ⟨"a", 2, 100, 1, 5, .CircuitOpen⟩).2 (Or.inr rfl)⟩

/-! ### Error group lemmas -/

theorem stringJoin_cons (s : String) (l : List String) :
    String.join (s :: l) = s ++ String.join l := by
  simp [String.join_eq]
  rfl

mutual

theorem GoError.beq_refl : ∀ e : GoError, GoError.beq e e = true
  | .base i m => by simp [GoError.beq]
  | .join es => by
      rw [GoError.beq]
      exact GoError.beqList_refl es

theorem GoError.beqList_refl : ∀ es : List GoError, GoError.beqList es es = true
  | [] => by rw [GoError.beqList]
  | e :: es => by
      rw [GoError.beqList]
      simp [GoError.beq_refl e, GoError.beqList_refl es]

end

theorem isError_self (e : GoError) : isError e e = true := by
  rw [isError.eq_def]
  simp [GoError.beq_refl e]

theorem isErrorList_mem (es : List GoError) (e : GoError) (h : e ∈ es) :
    isErrorList es e = true := by
  induction es with
  | nil => cases h
  | cons f fs ih =>
      rw [isErrorList]
      rcases List.mem_cons.mp h with h | h
      · subst h
        simp [isError_self e]
      · simp [ih h]

theorem errorLines_spec (es : List GoError) (i : Nat) :
    errorLines i (es.map some) =
      String.join ((List.enumFrom i es).map fun p =>
        toString (p.1 + 1) ++ ": " ++ errMessage p.2 ++ "\n") := by
  induction es generalizing i with
  | nil => rfl
  | cons e es ih =>
      simp only [List.map_cons, errorLines, List.enumFrom, stringJoin_cons, optMessage]
      rw [ih]

/-! ### Claim theorems: error group and pool -/

/-- Claim C5: every group handed out by Get reports no errors, has an
empty error sequence, and carries this pool's back-reference — whether it
was freshly minted by the pool's New or is a reused instance with
arbitrary prior contents. -/
theorem pool_get_clean (p : ErrorGroupPool) :
    (p.Get).1.HasErrors = false ∧
    (p.Get).1.Errors.length = 0 ∧
    (p.Get).1.pool = some p.pid := by
  cases h : p.items <;>
    simp [ErrorGroupPool.Get, h, ErrorGroup.HasErrors, ErrorGroup.Errors,
      ErrorGroup.Clear]

/-- Claim C6: Error() renders the empty string for an empty group, the
single message verbatim for one error, and for two or more errors a count
header followed by the 1-indexed "i: message" lines in insertion order. -/
theorem errorGroup_error_format (eg : ErrorGroup) (es : List GoError)
    (h : eg.errors = es.map some) :
    (es = [] → eg.Error = "") ∧
    (∀ e, es = [e] → eg.Error = errMessage e) ∧
    (2 ≤ es.length →
      eg.Error = toString es.length ++ " errors occurred:\n" ++
        String.join (es.enum.map fun p =>
          toString (p.1 + 1) ++ ": " ++ errMessage p.2 ++ "\n")) := by
  refine ⟨?_, ?_, ?_⟩
  · rintro rfl
    simp only [List.map_nil] at h
    simp [ErrorGroup.Error, h]
  · rintro e rfl
    simp only [List.map_cons, List.map_nil] at h
    simp [ErrorGroup.Error, h, optMessage]
  · intro h2
    rcases es with _ | ⟨e1, _ | ⟨e2, rest⟩⟩
    · simp at h2
    · simp at h2
    · simp only [List.map_cons] at h
      have hl := errorLines_spec (e1 :: e2 :: rest) 0
      simp only [List.map_cons] at hl
      simp [ErrorGroup.Error, h, hl, List.enum]

/-- Witness for Claim C6 at the spec's own vectors: an empty group, a
group holding one error with message "a", and a group holding errors with
messages "a" and "b". -/
theorem errorGroup_error_format_witness :
    ({ errors := [], pool := none } : ErrorGroup).Error = "" ∧
    ({ errors := [some (.base 0 "a")], pool := none } : ErrorGroup).Error = "a" ∧
    ({ errors := [some (.base 0 "a"), some (.base 1 "b")], pool := none } :
        ErrorGroup).Error = "2 errors occurred:\n1: a\n2: b\n" := by
  refine ⟨(errorGroup_error_format _ [] rfl).1 rfl, ?_, ?_⟩
  · have hx := (errorGroup_error_format
      { errors := [some (.base 0 "a")], pool := none }
      [GoError.base 0 "a"] rfl).2.1 (GoError.base 0 "a") rfl
    rw [hx, errMessage]
  · have hx := (errorGroup_error_format
      { errors := [some (.base 0 "a"), some (.base 1 "b")], pool := none }
      [GoError.base 0 "a", GoError.base 1 "b"] rfl).2.2 (by simp)
    rw [hx]
    simp only [List.enum, List.enumFrom, List.map_cons, List.map_nil,
      stringJoin_cons, errMessage, List.length_cons, List.length_nil]
    rfl

/-- Claim C7: Join returns nil for an empty group, and for a non-empty
group returns a combined error that errors.Is-matches every error held in
the group. -/
theorem join_spec (eg : ErrorGroup) (es : List GoError)
    (h : eg.errors = es.map some) :
    (es = [] → eg.Join = none) ∧
    (es ≠ [] → ∃ j, eg.Join = some j ∧ ∀ e ∈ es, isError j e = true) := by
  constructor
  · rintro rfl
    simp only [List.map_nil] at h
    simp [ErrorGroup.Join, goJoin, h]
  · intro hne
    refine ⟨.join es, ?_, ?_⟩
    · have hid : List.filterMap id (es.map some) = es := by
        simp [List.filterMap_map]
      rcases es with _ | ⟨e0, rest⟩
      · exact absurd rfl hne
      · simp only [List.map_cons] at h hid
        simp [ErrorGroup.Join, goJoin, h, hid]
    · intro e he
      rw [isError.eq_def]
      simp [isErrorList_mem es e he]

/-- Witness for Claim C7: the empty group joins to nil; a group holding
two distinct errors joins to an error matching both. -/
theorem join_spec_witness :
    (({ errors := [], pool := none } : ErrorGroup).Join = none) ∧
    (∃ j, ({ errors := [some (.base 0 "a"), some (.base 1 "b")], pool := none } :
        ErrorGroup).Join = some j ∧
      ∀ e ∈ [GoError.base 0 "a", GoError.base 1 "b"], isError j e = true) :=
  ⟨(join_spec _ [] rfl).1 rfl,
   (join_spec _ [GoError.base 0 "a", GoError.base 1 "b"] rfl).2 (by simp)⟩

/-- Claim C8: Add(nil) leaves the group unchanged, and folding any
sequence of Add calls over a group with no nil entries yields a group
with no nil entries. -/
theorem add_nil_noop (eg : ErrorGroup) (errs : List (Option GoError))
    (h : eg.errors.all Option.isSome = true) :
    eg.Add none = eg ∧
    (errs.foldl ErrorGroup.Add eg).errors.all Option.isSome = true := by
  refine ⟨rfl, ?_⟩
  induction errs generalizing eg with
  | nil => simpa using h
  | cons e es ih =>
      cases e with
      | none => exact ih eg h
      | some x =>
          apply ih
          simp [ErrorGroup.Add, List.all_append, h]

/-- Witness for Claim C8: adding nil to a fresh group changes nothing,
and a fold adding one real error and one nil leaves no nil entry. -/
theorem add_nil_noop_witness :
    NewErrorGroup.Add none = NewErrorGroup ∧
    ([some (GoError.base 0 "a"), none].foldl ErrorGroup.Add
        NewErrorGroup).errors.all Option.isSome = true :=
  add_nil_noop NewErrorGroup [some (GoError.base 0 "a"), none] rfl

/-- Claim C9: the first Release of a pooled group clears its error
sequence, clears the pool back-reference, and pushes the cleared instance
into the pool; releasing that instance again is a no-op that re-inserts
nothing. -/
theorem release_spec (eg : ErrorGroup) (p : ErrorGroupPool)
    (h : eg.pool = some p.pid) :
    ((eg.Release p).1.errors = [] ∧
     (eg.Release p).1.pool = none ∧
     (eg.Release p).2.items = (eg.Release p).1 :: p.items) ∧
    (eg.Release p).1.Release (eg.Release p).2 = ((eg.Release p).1, (eg.Release p).2) := by
  simp [ErrorGroup.Release, h, ErrorGroupPool.put, ErrorGroup.Clear]

/-- Witness for Claim C9: a pooled group holding one error, released
against its (empty) pool, then released again. -/
theorem release_spec_witness :
    (((⟨[some (.base 0 "a")], some 7⟩ : ErrorGroup).Release
          (⟨7, 4, []⟩ : ErrorGroupPool)).1.errors = [] ∧
     ((⟨[some (.base 0 "a")], some 7⟩ : ErrorGroup).Release
          (⟨7, 4, []⟩ : ErrorGroupPool)).1.pool = none ∧
     ((⟨[some (.base 0 "a")], some 7⟩ : ErrorGroup).Release
          (⟨7, 4, []⟩ : ErrorGroupPool)).2.items
        = ((⟨[some (.base 0 "a")], some 7⟩ : ErrorGroup).Release
          (⟨7, 4, []⟩ : ErrorGroupPool)).1 :: (⟨7, 4, []⟩ : ErrorGroupPool).items) ∧
    ((⟨[some (.base 0 "a")], some 7⟩ : ErrorGroup).Release
          (⟨7, 4, []⟩ : ErrorGroupPool)).1.Release
        ((⟨[some (.base 0 "a")], some 7⟩ : ErrorGroup).Release
          (⟨7, 4, []⟩ : ErrorGroupPool)).2
      = (((⟨[some (.base 0 "a")], some 7⟩ : ErrorGroup).Release
          (⟨7, 4, []⟩ : ErrorGroupPool)).1,
         ((⟨[some (.base 0 "a")], some 7⟩ : ErrorGroup).Release
          (⟨7, 4, []⟩ : ErrorGroupPool)).2) :=
  release_spec ⟨[some (.base 0 "a")], some 7⟩ ⟨7, 4, []⟩ rfl

/-- Claim C10: ErrorOrNil returns nil exactly when the group holds no
errors, returns the group itself exactly when it holds at least one, and
so is non-nil precisely when HasErrors is true. -/
theorem errorOrNil_spec (eg : ErrorGroup) :
    (eg.ErrorOrNil = none ↔ eg.errors.length = 0) ∧
    (0 < eg.errors.length → eg.ErrorOrNil = some eg) ∧
    (eg.ErrorOrNil).isSome = eg.HasErrors := by
  rcases heq : eg.errors with _ | ⟨e, es⟩ <;>
    simp [ErrorGroup.ErrorOrNil, ErrorGroup.HasErrors, heq]

/-- Witness for Claim C10 at a group holding one error. -/
theorem errorOrNil_spec_witness :
    ((⟨[some (.base 0 "a")], none⟩ : ErrorGroup).ErrorOrNil
        = some (⟨[some (.base 0 "a")], none⟩ : ErrorGroup)) ∧
    ((⟨[some (.base 0 "a")], none⟩ : ErrorGroup).ErrorOrNil).isSome
        = (⟨[some (.base 0 "a")], none⟩ : ErrorGroup).HasErrors :=
  ⟨(errorOrNil_spec ⟨[some (.base 0 "a")], none⟩).2.1 (by decide),
   (errorOrNil_spec ⟨[some (.base 0 "a")], none⟩).2.2⟩

end Ewrap
